import Mathlib

/-!
Verification of the AI_Gallery image browser (src/main.py).

The program is an event-driven image browser: a filesystem scanner
(list_subdirs, list_images), a lazy thumbnail-texture cache (thumb_for),
a grid layout engine (compute_columns, build_thumbnail_grid), and a
detached viewer launcher (launch_viewer, open_system_viewer).

This file gives a shallow embedding of those functions and proves the
frozen claims about them.  Filesystem access is modelled explicitly: a
directory listing is an `Option (List Entry)` where `none` models the
`except` branch taken when `Path.iterdir` raises (permission denied,
missing path), and an `Entry` records the name and kind (`is_file` /
`is_dir` / neither) of one child.  Image decoding is modelled by a
success predicate `dec : String → Bool`, and the dearpygui texture
registry by a counter handing out fresh nonzero handles.
-/

/-! ### Constants (src/main.py lines 19-22) -/

def THUMB_SIZE : Int := 192

def THUMB_PADDING : Int := 8

/-- The supported-extension set `SUPPORTED_EXT` from line 22, as a list
(the code only tests membership). -/
def SUPPORTED_EXT : List String :=
  [".jpg", ".jpeg", ".png", ".bmp", ".gif", ".tif", ".tiff", ".webp"]

/-! ### Filesystem model -/

/-- Kind of a directory child: `Path.is_file`, `Path.is_dir`, or neither
(e.g. a broken symlink or special file, where both tests are false). -/
inductive FKind where
  | file
  | dir
  | other
deriving DecidableEq, Repr

/-- One child of a directory, as yielded by `Path.iterdir`: its base name
and its kind.  The name stands for the path string of the entry. -/
structure Entry where
  name : String
  kind : FKind
deriving DecidableEq, Repr

/-- Index of the last dot in a character list, if any
(Python `str.rfind` restricted to the one character the code uses). -/
def rfindDot : List Char → Option Nat
  | [] => none
  | c :: cs =>
    match rfindDot cs with
    | some i => some (i + 1)
    | none => if c = '.' then some 0 else none

/-- Python `PurePath.suffix` on a base name: the substring from the last
dot, but only when that dot is neither the first nor the last character
(CPython: `i = name.rfind('.'); return name[i:] if 0 < i < len(name) - 1
else ''`).  In particular the suffix of a dotfile such as `.jpg` is empty. -/
def pathSuffix (name : String) : String :=
  match rfindDot name.data with
  | some i => if 0 < i ∧ i + 1 < name.data.length then ⟨name.data.drop i⟩ else ""
  | none => ""

/-- Python `str.lower()` restricted to its ASCII action, at the level of
the character list of a string (core `String.toLower` is not used because
its byte-position recursion does not reduce in the kernel). -/
def strLower (s : String) : String :=
  ⟨s.data.map Char.toLower⟩

/-- Source function is_image_file (lines 37-38): `p.is_file() and p.suffix.lower() in SUPPORTED_EXT`. -/
def is_image_file (e : Entry) : Bool :=
  (e.kind == FKind.file) && SUPPORTED_EXT.contains (strLower (pathSuffix e.name))

/-- Lexicographic comparison of character lists by code point: exactly how
Python compares the strings produced by the sort key `x.name.lower()`. -/
def lexLe : List Char → List Char → Bool
  | [], _ => true
  | _ :: _, [] => false
  | a :: as, b :: bs =>
    if a.toNat < b.toNat then true
    else if b.toNat < a.toNat then false
    else lexLe as bs

/-- Case-insensitive comparison of two names: Python
`a.lower() <= b.lower()` as used by the sort key. -/
def lowerLe (a b : String) : Prop :=
  lexLe (strLower a).data (strLower b).data = true

instance : DecidableRel lowerLe := fun a b =>
  inferInstanceAs (Decidable (lexLe (strLower a).data (strLower b).data = true))

/-- The sort key relation used by both listing functions:
`key=lambda x: x.name.lower()`. -/
def nameLe (a b : Entry) : Prop :=
  lowerLe a.name b.name

instance : DecidableRel nameLe := fun a b =>
  inferInstanceAs (Decidable (lowerLe a.name b.name))

/-- Python `sorted(entries, key=lambda x: x.name.lower())`.  Mathlib insertion
sort is used as the sorting algorithm; like Python `sorted` it returns a
permutation of its input that is sorted for the key relation. -/
def sortByName (es : List Entry) : List Entry :=
  List.insertionSort nameLe es

/-- Source function list_subdirs (lines 41-45): on an access error (`none`) return `[]`,
otherwise sort the children that are directories by lowercased name. -/
def list_subdirs (d : Option (List Entry)) : List Entry :=
  match d with
  | none => []
  | some es => sortByName (es.filter (fun e => e.kind == FKind.dir))

/-- Source function list_images (lines 48-52): on an access error return `[]`, otherwise
sort all children by lowercased name, keep those passing `is_image_file`,
and return their path strings. -/
def list_images (d : Option (List Entry)) : List String :=
  match d with
  | none => []
  | some es => ((sortByName es).filter is_image_file).map Entry.name

/-! ### Grid layout: column computation (lines 88-89) -/

/-- Source function compute_columns (lines 88-89): `max(1, avail_w // (THUMB_SIZE + THUMB_PADDING))`.
Python `//` on ints is floor division, `Int.fdiv`. -/
def compute_columns (avail_w : Int) : Int :=
  max 1 (Int.fdiv avail_w (THUMB_SIZE + THUMB_PADDING))

/-! ### Thumbnail cache (`thumb_for`, lines 62-78)

`state["thumb_tex"]` is a dict from path to dearpygui texture tag; its
lookup discipline is modelled by an association list whose update
prepends (exactly the observable behaviour of dict assignment under
`dict.get`).  `dpg.add_static_texture` hands out a fresh item tag, which
is always a nonzero integer; the registry is modelled by the counter
`nextTex`.  The field `decodes` counts entries into the decode attempt
(`Image.open` onwards); it is instrumentation of the model, not program
state, and lets re-decoding be observed. -/

structure ThumbState where
  thumb_tex : List (String × Nat)
  nextTex : Nat
  decodes : Nat
deriving DecidableEq, Repr

/-- The body of the `try` block of `thumb_for`: attempt to decode `path`
(success given by the oracle `dec`); on success register a fresh texture,
cache it under `path` and return it; on failure (`except`) return `None`
leaving the cache as it was. -/
def thumb_decode (dec : String → Bool) (path : String) (s : ThumbState) :
    Option Nat × ThumbState :=
  if dec path then
    (some s.nextTex,
      { thumb_tex := (path, s.nextTex) :: s.thumb_tex,
        nextTex := s.nextTex + 1,
        decodes := s.decodes + 1 })
  else
    (none, { s with decodes := s.decodes + 1 })

/-- Source function thumb_for (lines 62-78).  Returns `None` when Pillow is absent;
otherwise `tex = state["thumb_tex"].get(path); if tex: return tex` — note
the truthiness test, modelled as nonzero — and otherwise the decode
attempt. -/
def thumb_for (pilOk : Bool) (dec : String → Bool) (path : String)
    (s : ThumbState) : Option Nat × ThumbState :=
  if pilOk then
    match s.thumb_tex.lookup path with
    | some tex => if tex = 0 then thumb_decode dec path s else (some tex, s)
    | none => thumb_decode dec path s
  else
    (none, s)

/-- Run a sequence of further `thumb_for` calls (on any paths), keeping
only the evolving cache state. -/
def runThumbCalls (pilOk : Bool) (dec : String → Bool) (qs : List String)
    (s : ThumbState) : ThumbState :=
  qs.foldl (fun st q => (thumb_for pilOk dec q st).2) s

/-- Well-formedness of the modelled registry: dearpygui tags are nonzero,
so the counter is positive and every cached tag is nonzero.  The initial
state (`state["thumb_tex"] = {}`, empty registry) satisfies it. -/
def ThumbState.WF (s : ThumbState) : Prop :=
  0 < s.nextTex ∧ ∀ pt ∈ s.thumb_tex, pt.2 ≠ 0

/-! ### Grid construction (`build_thumbnail_grid`, lines 175-216) -/

/-- One table cell of the grid: either a thumbnail tile for an image path
(with the optional texture returned by `thumb_for`: image button when
present, plain `Open` button when absent, plus the file-name label), or
the informational text shown when the directory has no images. -/
inductive Cell where
  | thumbCell (path : String) (tex : Option Nat)
  | textCell (msg : String)
deriving DecidableEq, Repr

/-- The path a cell displays, if it is a thumbnail cell. -/
def cellPath : Cell → Option String
  | .thumbCell p _ => some p
  | .textCell _ => none

/-- The message of the empty-directory placeholder cell (line 196). -/
def emptyGridMsg (pilOk : Bool) : String :=
  if pilOk then "No images in this folder." else "Pillow not installed. Thumbs disabled."

/-- One iteration of the `for i, p in enumerate(imgs)` loop (lines
200-216): look up or decode the thumbnail, build the cell, and start a
new table row exactly when `i % cols == 0`.  Rows are accumulated in
reverse, each row itself reversed, so that starting a row is a cons and
adding a cell to the current row is a cons onto the head. -/
def gridStep (pilOk : Bool) (dec : String → Bool) (cols : Nat)
    (acc : List (List Cell) × ThumbState) (ip : Nat × String) :
    List (List Cell) × ThumbState :=
  let r := thumb_for pilOk dec ip.2 acc.2
  let cell := Cell.thumbCell ip.2 r.1
  if ip.1 % cols = 0 then
    ([cell] :: acc.1, r.2)
  else
    match acc.1 with
    | [] => ([[cell]], r.2)
    | row :: rows => ((cell :: row) :: rows, r.2)

/-- Source function build_thumbnail_grid (lines 175-216), as a function of the image
list, the column count, and the cache state: returns the rows of cells
and the updated cache.  An empty image list yields the single placeholder
row (lines 193-197); otherwise the enumerate loop fills rows of `cols`
cells. -/
def build_thumbnail_grid (pilOk : Bool) (dec : String → Bool) (cols : Nat)
    (imgs : List String) (s : ThumbState) : List (List Cell) × ThumbState :=
  if imgs.isEmpty then
    ([[Cell.textCell (emptyGridMsg pilOk)]], s)
  else
    let r := imgs.enum.foldl (gridStep pilOk dec cols) ([], s)
    (r.1.reverse.map List.reverse, r.2)

/-- Linear left-to-right processing of the images into their cells,
threading the cache: the row structure forgotten. -/
def processCells (pilOk : Bool) (dec : String → Bool) (imgs : List String)
    (s : ThumbState) : List Cell × ThumbState :=
  match imgs with
  | [] => ([], s)
  | p :: ps =>
    let r := thumb_for pilOk dec p s
    let rest := processCells pilOk dec ps r.2
    (Cell.thumbCell p r.1 :: rest.1, rest.2)

/-- Partition a list into consecutive chunks: the first `c` elements,
then the next `c`, and so on (for `c ≥ 1`). -/
def chunkList (c : Nat) : List α → List (List α)
  | [] => []
  | x :: xs => (x :: xs.take (c - 1)) :: chunkList c (xs.drop (c - 1))
termination_by l => l.length
decreasing_by
  simp only [List.length_drop, List.length_cons]
  omega

/-! ### Viewer launcher (lines 92-105) -/

/-- The three `sys.platform` branches of `open_system_viewer`. -/
inductive Platform where
  | windows
  | darwin
  | other
deriving DecidableEq, Repr

/-- An observable action taken to display an image: `os.startfile`, or a
`subprocess.Popen` with the given argument vector. -/
inductive ViewerAction where
  | startfile (path : String)
  | popen (cmd : List String)
deriving DecidableEq, Repr

/-- Source function open_system_viewer (lines 92-98): dispatch on the platform to the
OS default file-opening mechanism. -/
def open_system_viewer (plat : Platform) (image_path : String) : ViewerAction :=
  match plat with
  | .windows => .startfile image_path
  | .darwin => .popen ["open", image_path]
  | .other => .popen ["xdg-open", image_path]

/-- Source function launch_viewer (lines 101-105): try to spawn a second instance of
this program in viewer mode; the spawn attempt either succeeds (`ok`) or
raises (`error`), and in the `except` branch the call falls back to
`open_system_viewer`.  The function is total: no outcome propagates an
exception. -/
def launch_viewer (plat : Platform) (spawn : Except String Unit)
    (pyExe script image_path : String) : ViewerAction :=
  match spawn with
  | .ok _ => .popen [pyExe, script, "--view", image_path]
  | .error _ => open_system_viewer plat image_path

/-! ### Application state and the resize path (lines 145-149, 218-224) -/

/-- The parts of the global `state` dict that the resize path can read or
write, together with the grid it (re)builds. -/
structure AppState where
  current_dir : String
  images_in_dir : List String
  thumb : ThumbState
  grid : List (List Cell)
  main_window_w : Int
  main_window_h : Int
deriving Repr

/-- The `build_thumbnail_grid()` call as the application performs it:
columns from the measured available width, images from
`state["images_in_dir"]` (the directory is never rescanned here — only
`load_directory_images` calls `list_images`). -/
def build_grid_app (pilOk : Bool) (dec : String → Bool) (availW : Int)
    (s : AppState) : AppState :=
  let cols := (compute_columns availW).toNat
  let r := build_thumbnail_grid pilOk dec cols s.images_in_dir s.thumb
  { s with grid := r.1, thumb := r.2 }

/-- Source function resize_callback (lines 218-224): parse the new viewport size from
`app_data` (`none` models the `except: return` branch), resize the main
window, and rebuild the grid. -/
def resize_callback (pilOk : Bool) (dec : String → Bool)
    (app_data : Option (Int × Int)) (availW : Int) (s : AppState) : AppState :=
  match app_data with
  | none => s
  | some wh =>
    build_grid_app pilOk dec availW
      { s with main_window_w := wh.1, main_window_h := wh.2 - 30 }

/-! ### Order properties of the sort key relation -/

theorem lexLe_total (x : List Char) : ∀ y, lexLe x y = true ∨ lexLe y x = true := by
  induction x with
  | nil => intro y; left; rfl
  | cons a as ih =>
    intro y
    cases y with
    | nil => right; rfl
    | cons b bs =>
      rcases Nat.lt_trichotomy a.toNat b.toNat with h | h | h
      · left; simp [lexLe, h]
      · rcases ih bs with hh | hh
        · left
          simp [lexLe, h, hh]
        · right
          simp [lexLe, h.symm, hh]
      · right; simp [lexLe, h]

theorem lexLe_trans (x : List Char) :
    ∀ y z, lexLe x y = true → lexLe y z = true → lexLe x z = true := by
  induction x with
  | nil => intro y z _ _; rfl
  | cons a as ih =>
    intro y z hxy hyz
    cases y with
    | nil => simp [lexLe] at hxy
    | cons b bs =>
      cases z with
      | nil => simp [lexLe] at hyz
      | cons c cs =>
        have hab : a.toNat ≤ b.toNat := by
          by_contra hcon
          simp [lexLe, show ¬ a.toNat < b.toNat by omega,
            show b.toNat < a.toNat by omega] at hxy
        have hbc : b.toNat ≤ c.toNat := by
          by_contra hcon
          simp [lexLe, show ¬ b.toNat < c.toNat by omega,
            show c.toNat < b.toNat by omega] at hyz
        rcases Nat.lt_or_ge a.toNat c.toNat with hac | hac
        · simp [lexLe, hac]
        · have hac2 : a.toNat = c.toNat := by omega
          have hab2 : a.toNat = b.toNat := by omega
          have hxy' : lexLe as bs = true := by
            simpa [lexLe, hab2] using hxy
          have hyz' : lexLe bs cs = true := by
            simpa [lexLe, show b.toNat = c.toNat by omega] using hyz
          simpa [lexLe, hac2] using ih bs cs hxy' hyz'

instance : IsTotal Entry nameLe :=
  ⟨fun a b => lexLe_total (strLower a.name).data (strLower b.name).data⟩

instance : IsTrans Entry nameLe :=
  ⟨fun a b c => lexLe_trans (strLower a.name).data (strLower b.name).data
    (strLower c.name).data⟩

/-! ### Claims C1, C7: the column computation -/

/-- C1: for every integer available width w, compute_columns w equals
max 1 (w floor-divided by tile_size + padding) with tile_size 192 and
padding 8; in particular compute_columns 500 = 2. -/
theorem claim_C1 :
    (∀ w : Int, compute_columns w = max 1 (Int.fdiv w (192 + 8)))
    ∧ compute_columns 500 = 2 :=
  ⟨fun _ => rfl, by decide⟩

/-- C7: compute_columns is non-decreasing, and is at least 1 for every
width, including width 0. -/
theorem claim_C7 :
    (∀ w1 w2 : Int, w1 ≤ w2 → compute_columns w1 ≤ compute_columns w2)
    ∧ (∀ w : Int, 1 ≤ compute_columns w) ∧ compute_columns 0 = 1 := by
  refine ⟨?_, fun w => le_max_left 1 _, by decide⟩
  intro w1 w2 h
  have h200 : (0 : Int) ≤ THUMB_SIZE + THUMB_PADDING := by decide
  unfold compute_columns
  rw [Int.fdiv_eq_ediv _ h200, Int.fdiv_eq_ediv _ h200]
  exact max_le_max le_rfl (Int.ediv_le_ediv (by decide) h)

/-- Witness for C7 at a concrete pair of widths. -/
theorem claim_C7_witness :
    (100 : Int) ≤ 500 ∧ compute_columns 100 ≤ compute_columns 500 :=
  ⟨by decide, claim_C7.1 100 500 (by decide)⟩

/-! ### Claims C2, C6, C10: the filesystem scanner -/

/-- C2: for every directory, list_images returns exactly the entries that
pass is_image_file (regular files with a supported extension, lowercased),
as a case-insensitively sorted list of names; and the concrete example:
a directory holding b.PNG, a.jpg, c.txt yields [a.jpg, b.PNG]. -/
theorem claim_C2 :
    (∀ es : List Entry,
      (list_images (some es)).Perm ((es.filter is_image_file).map Entry.name)
      ∧ (list_images (some es)).Pairwise lowerLe)
    ∧ list_images (some [⟨"b.PNG", .file⟩, ⟨"a.jpg", .file⟩, ⟨"c.txt", .file⟩])
        = ["a.jpg", "b.PNG"] := by
  refine ⟨fun es => ⟨?_, ?_⟩, by decide⟩
  · exact ((List.perm_insertionSort nameLe es).filter is_image_file).map Entry.name
  · have hs : (sortByName es).Pairwise nameLe :=
      List.sorted_insertionSort nameLe es
    exact List.pairwise_map.mpr (hs.filter is_image_file)

/-- C6: the scanner functions never raise: each returns the empty list on
a filesystem access error, and list_subdirs otherwise returns exactly the
child directories, sorted case-insensitively by name. -/
theorem claim_C6 :
    list_subdirs none = [] ∧ list_images none = []
    ∧ ∀ es : List Entry,
      (list_subdirs (some es)).Perm (es.filter (fun e => e.kind == FKind.dir))
      ∧ (list_subdirs (some es)).Pairwise nameLe := by
  refine ⟨rfl, rfl, fun es => ⟨?_, ?_⟩⟩
  · exact List.perm_insertionSort nameLe _
  · exact List.sorted_insertionSort nameLe _

/-- C10: a dotfile whose whole name is a supported extension (such as
.jpg) has an empty path suffix, so it never appears in list_images. -/
theorem claim_C10 :
    ∀ n : String, n ∈ SUPPORTED_EXT →
      pathSuffix n = "" ∧ ∀ es : List Entry, n ∉ list_images (some es) := by
  intro n hn
  have hsuf : pathSuffix n = "" := by
    simp only [SUPPORTED_EXT, List.mem_cons, List.not_mem_nil, or_false] at hn
    rcases hn with rfl | rfl | rfl | rfl | rfl | rfl | rfl | rfl <;> decide
  refine ⟨hsuf, ?_⟩
  intro es hmem
  simp only [list_images, List.mem_map] at hmem
  obtain ⟨e, he, hname⟩ := hmem
  have himg : is_image_file e = true := (List.mem_filter.mp he).2
  rw [is_image_file, hname, hsuf] at himg
  simp at himg
  exact absurd himg.2 (by decide)

/-- Witness for C10 at the concrete dotfile name .jpg. -/
theorem claim_C10_witness :
    ".jpg" ∈ SUPPORTED_EXT
    ∧ (pathSuffix ".jpg" = ""
        ∧ ∀ es : List Entry, ".jpg" ∉ list_images (some es)) :=
  ⟨by decide, claim_C10 ".jpg" (by decide)⟩

/-! ### Lemmas about the thumbnail cache -/

theorem lookup_mem {l : List (String × Nat)} {a : String} {b : Nat}
    (h : l.lookup a = some b) : (a, b) ∈ l := by
  induction l with
  | nil => simp [List.lookup] at h
  | cons kv l ih =>
    obtain ⟨k, v⟩ := kv
    by_cases hak : a = k
    · subst hak
      simp [List.lookup] at h
      simp [h]
    · have hbeq : (a == k) = false := by simp [hak]
      simp only [List.lookup, hbeq] at h
      exact List.mem_cons_of_mem _ (ih h)

/-- A successful thumb_for call leaves the returned handle cached under
the path, the handle is nonzero, well-formedness is preserved, and the
call can only have succeeded with Pillow present. -/
theorem thumb_for_some_lookup {pilOk : Bool} {dec : String → Bool}
    {p : String} {s : ThumbState} {t : Nat} {s₁ : ThumbState} (hwf : s.WF)
    (h : thumb_for pilOk dec p s = (some t, s₁)) :
    s₁.thumb_tex.lookup p = some t ∧ t ≠ 0 ∧ pilOk = true := by
  cases pilOk with
  | false => simp [thumb_for] at h
  | true =>
    simp only [thumb_for, if_true] at h
    cases hl : s.thumb_tex.lookup p with
    | some tex =>
      rw [hl] at h
      by_cases htex : tex = 0
      · subst htex
        exact absurd (hwf.2 _ (lookup_mem hl)) (by simp)
      · simp only [htex, if_false, Prod.mk.injEq] at h
        obtain ⟨ht, hs⟩ := h
        injection ht with ht
        subst ht
        subst hs
        exact ⟨hl, htex, rfl⟩
    | none =>
      rw [hl] at h
      simp only [thumb_decode] at h
      cases hd : dec p with
      | false => simp [hd] at h
      | true =>
        simp only [hd, if_true, Prod.mk.injEq] at h
        obtain ⟨ht, hs⟩ := h
        injection ht with ht
        subst ht
        subst hs
        refine ⟨by simp [List.lookup], ?_, rfl⟩
        have h1 := hwf.1
        omega

/-- A cache hit on a nonzero handle returns it and leaves the state
untouched. -/
theorem thumb_for_hit {dec : String → Bool} {p : String} {s : ThumbState}
    {t : Nat} (hl : s.thumb_tex.lookup p = some t) (ht : t ≠ 0) :
    thumb_for true dec p s = (some t, s) := by
  simp [thumb_for, hl, ht]

/-- No thumb_for call ever removes or changes an existing nonzero cache
entry. -/
theorem lookup_preserved (dec : String → Bool) (q : String) {s : ThumbState}
    {p : String} {t : Nat} (hl : s.thumb_tex.lookup p = some t) (ht : t ≠ 0) :
    ((thumb_for true dec q s).2).thumb_tex.lookup p = some t := by
  simp only [thumb_for, if_true]
  cases hq : s.thumb_tex.lookup q with
  | some tex =>
    by_cases htex : tex = 0
    · subst htex
      have hpq : p ≠ q := by
        intro hpq
        subst hpq
        rw [hl] at hq
        cases hq
        exact ht rfl
      have hbeq : (p == q) = false := by simp [hpq]
      cases hd : dec q <;>
        simp [thumb_decode, hd, List.lookup, hbeq, hl]
    · simp [htex, hl]
  | none =>
    have hpq : p ≠ q := by
      intro hpq
      subst hpq
      rw [hl] at hq
      cases hq
    have hbeq : (p == q) = false := by simp [hpq]
    cases hd : dec q <;>
      simp [thumb_decode, hd, List.lookup, hbeq, hl]

/-- Nonzero cache entries survive any sequence of further calls. -/
theorem runThumbCalls_lookup (dec : String → Bool) (qs : List String) :
    ∀ {s : ThumbState} {p : String} {t : Nat},
      s.thumb_tex.lookup p = some t → t ≠ 0 →
      (runThumbCalls true dec qs s).thumb_tex.lookup p = some t := by
  induction qs with
  | nil => intro s p t hl _; exact hl
  | cons q qs ih =>
    intro s p t hl ht
    exact ih (lookup_preserved dec q hl ht) ht

/-! ### Claims C4, C5: the thumbnail cache -/

/-- C4: once thumb_for has returned a texture handle for a path, the
handle is in the cache, and after any sequence of further thumb_for calls
a call on the same path returns that identical handle and leaves the
state (in particular the decode count) completely unchanged: no re-decode. -/
theorem claim_C4 :
    ∀ (pilOk : Bool) (dec : String → Bool) (p : String) (s : ThumbState)
      (t : Nat) (s₁ : ThumbState) (qs : List String),
      s.WF → thumb_for pilOk dec p s = (some t, s₁) →
      s₁.thumb_tex.lookup p = some t
      ∧ thumb_for pilOk dec p (runThumbCalls pilOk dec qs s₁)
          = (some t, runThumbCalls pilOk dec qs s₁) := by
  intro pilOk dec p s t s₁ qs hwf h
  obtain ⟨hl, ht, hpil⟩ := thumb_for_some_lookup hwf h
  subst hpil
  exact ⟨hl, thumb_for_hit (runThumbCalls_lookup dec qs hl ht) ht⟩

/-- Witness for C4: a concrete fresh cache, a successful decode of path a,
then an interleaved call on path b. -/
theorem claim_C4_witness :
    ThumbState.WF ⟨[], 1, 0⟩
    ∧ thumb_for true (fun _ => true) "a" ⟨[], 1, 0⟩ = (some 1, ⟨[("a", 1)], 2, 1⟩)
    ∧ (ThumbState.mk [("a", 1)] 2 1).thumb_tex.lookup "a" = some 1
    ∧ thumb_for true (fun _ => true) "a"
        (runThumbCalls true (fun _ => true) ["b"] ⟨[("a", 1)], 2, 1⟩)
      = (some 1, runThumbCalls true (fun _ => true) ["b"] ⟨[("a", 1)], 2, 1⟩) := by
  have h := claim_C4 true (fun _ => true) "a" ⟨[], 1, 0⟩ 1 ⟨[("a", 1)], 2, 1⟩ ["b"]
    (by constructor <;> decide) (by decide)
  exact ⟨by constructor <;> decide, by decide, h.1, h.2⟩

/-- C5: when the path is not cached and its decode fails, thumb_for
returns none, the cache is left unchanged (the failure is not cached),
and an immediate second call on the same path attempts the decode again
(the attempt counter advances both times). -/
theorem claim_C5 :
    ∀ (dec : String → Bool) (p : String) (s : ThumbState),
      s.thumb_tex.lookup p = none → dec p = false →
      (thumb_for true dec p s).1 = none
      ∧ (thumb_for true dec p s).2.thumb_tex = s.thumb_tex
      ∧ (thumb_for true dec p s).2.decodes = s.decodes + 1
      ∧ (thumb_for true dec p (thumb_for true dec p s).2).1 = none
      ∧ (thumb_for true dec p (thumb_for true dec p s).2).2.decodes
          = s.decodes + 2 := by
  intro dec p s hl hd
  have hstep : thumb_for true dec p s = (none, { s with decodes := s.decodes + 1 }) := by
    simp [thumb_for, thumb_decode, hl, hd]
  have hstep2 : thumb_for true dec p { s with decodes := s.decodes + 1 }
      = (none, { s with decodes := s.decodes + 1 + 1 }) := by
    simp [thumb_for, thumb_decode, hl, hd]
  rw [hstep]
  rw [hstep2]
  exact ⟨rfl, rfl, rfl, rfl, rfl⟩

/-- Witness for C5: a fresh cache and a path whose decode always fails. -/
theorem claim_C5_witness :
    (ThumbState.mk [] 1 0).thumb_tex.lookup "broken.jpg" = none
    ∧ ((fun _ => false) : String → Bool) "broken.jpg" = false
    ∧ (thumb_for true (fun _ => false) "broken.jpg" ⟨[], 1, 0⟩).1 = none
    ∧ (thumb_for true (fun _ => false) "broken.jpg" ⟨[], 1, 0⟩).2.thumb_tex
        = (ThumbState.mk [] 1 0).thumb_tex
    ∧ (thumb_for true (fun _ => false) "broken.jpg"
        (thumb_for true (fun _ => false) "broken.jpg" ⟨[], 1, 0⟩).2).2.decodes = 2 := by
  have h := claim_C5 (fun _ => false) "broken.jpg" ⟨[], 1, 0⟩ (by decide) rfl
  exact ⟨by decide, rfl, h.1, h.2.1, h.2.2.2.2⟩

/-! ### Claim C8: the viewer launcher -/

/-- C8: if the spawn of an independent viewer process raises, the call
falls back to the OS default file-opening mechanism for the path, and no
outcome of the spawn escapes the call (on success it is the viewer-mode
spawn of this program). -/
theorem claim_C8 :
    ∀ (plat : Platform) (pyExe script p e : String),
      launch_viewer plat (Except.error e) pyExe script p = open_system_viewer plat p
      ∧ launch_viewer plat (Except.ok ()) pyExe script p
          = ViewerAction.popen [pyExe, script, "--view", p] :=
  fun _ _ _ _ _ => ⟨rfl, rfl⟩

/-! ### Claim C9: resize rebuilds layout only -/

/-- C9: a resize event never changes the current directory or the stored
image list, and (when the event payload parses) the grid it installs is
rebuilt from that stored image list — the directory is not rescanned. -/
theorem claim_C9 :
    ∀ (pilOk : Bool) (dec : String → Bool) (d : Option (Int × Int))
      (availW : Int) (s : AppState),
      (resize_callback pilOk dec d availW s).current_dir = s.current_dir
      ∧ (resize_callback pilOk dec d availW s).images_in_dir = s.images_in_dir
      ∧ ∀ w h : Int, d = some (w, h) →
          (resize_callback pilOk dec d availW s).grid
            = (build_thumbnail_grid pilOk dec (compute_columns availW).toNat
                s.images_in_dir s.thumb).1 := by
  intro pilOk dec d availW s
  cases d with
  | none => exact ⟨rfl, rfl, fun w h hwh => by cases hwh⟩
  | some wh =>
    refine ⟨rfl, rfl, fun w h hwh => ?_⟩
    cases hwh
    rfl

/-- Witness for C9 at a concrete resize event. -/
theorem claim_C9_witness :
    (some ((800 : Int), (600 : Int)) = some (800, 600))
    ∧ (resize_callback true (fun _ => true) (some (800, 600)) 500
        (AppState.mk "d" ["x.jpg"] ⟨[], 1, 0⟩ [] 0 0)).grid
      = (build_thumbnail_grid true (fun _ => true) (compute_columns 500).toNat
          ["x.jpg"] ⟨[], 1, 0⟩).1 :=
  ⟨rfl, (claim_C9 true (fun _ => true) (some (800, 600)) 500
      (AppState.mk "d" ["x.jpg"] ⟨[], 1, 0⟩ [] 0 0)).2.2 800 600 rfl⟩

/-! ### Lemmas about the grid construction -/

theorem processCells_length (pilOk : Bool) (dec : String → Bool) :
    ∀ (imgs : List String) (s : ThumbState),
      (processCells pilOk dec imgs s).1.length = imgs.length := by
  intro imgs
  induction imgs with
  | nil => intro s; rfl
  | cons p ps ih => intro s; simp [processCells, ih]

theorem processCells_map_path (pilOk : Bool) (dec : String → Bool) :
    ∀ (imgs : List String) (s : ThumbState),
      (processCells pilOk dec imgs s).1.map cellPath = imgs.map some := by
  intro imgs
  induction imgs with
  | nil => intro s; rfl
  | cons p ps ih => intro s; simp [processCells, cellPath, ih]

theorem processCells_append (pilOk : Bool) (dec : String → Bool)
    (xs ys : List String) :
    ∀ s : ThumbState,
      processCells pilOk dec (xs ++ ys) s
        = ((processCells pilOk dec xs s).1
              ++ (processCells pilOk dec ys (processCells pilOk dec xs s).2).1,
            (processCells pilOk dec ys (processCells pilOk dec xs s).2).2) := by
  induction xs with
  | nil => intro s; simp [processCells]
  | cons p ps ih => intro s; simp [processCells, ih]

theorem enumFrom_append (xs ys : List α) :
    ∀ n : Nat, (xs ++ ys).enumFrom n = xs.enumFrom n ++ ys.enumFrom (n + xs.length) := by
  induction xs with
  | nil => intro n; simp
  | cons x xs ih =>
    intro n
    rw [List.cons_append, List.enumFrom_cons, List.enumFrom_cons, ih (n + 1),
      List.length_cons, List.cons_append]
    have h : n + 1 + xs.length = n + (xs.length + 1) := by omega
    rw [h]

/-- Filling the interior of a row: while the running index stays strictly
inside a column block, each image cell is consed onto the current row. -/
theorem gridFold_inner (pilOk : Bool) (dec : String → Bool) (cols : Nat) :
    ∀ (imgs : List String) (k j : Nat) (row : List Cell)
      (rows : List (List Cell)) (s : ThumbState),
      k % cols = 0 → 0 < j → j + imgs.length ≤ cols →
      (imgs.enumFrom (k + j)).foldl (gridStep pilOk dec cols) (row :: rows, s)
        = (((processCells pilOk dec imgs s).1.reverse ++ row) :: rows,
            (processCells pilOk dec imgs s).2) := by
  intro imgs
  induction imgs with
  | nil =>
    intro k j row rows s _ _ _
    simp [processCells]
  | cons p ps ih =>
    intro k j row rows s hk hj hle
    simp only [List.length_cons] at hle
    have hjc : j < cols := by omega
    have hmod : (k + j) % cols = j := by
      have h1 : cols * (k / cols) + k % cols = k := Nat.div_add_mod k cols
      rw [hk, Nat.add_zero] at h1
      calc (k + j) % cols = (cols * (k / cols) + j) % cols := by rw [h1]
        _ = j % cols := Nat.mul_add_mod _ _ _
        _ = j := Nat.mod_eq_of_lt hjc
    rw [List.enumFrom_cons, List.foldl_cons]
    have hstep : gridStep pilOk dec cols (row :: rows, s) (k + j, p)
        = ((Cell.thumbCell p (thumb_for pilOk dec p s).1 :: row) :: rows,
            (thumb_for pilOk dec p s).2) := by
      simp only [gridStep, hmod]
      rw [if_neg (by omega)]
    rw [hstep]
    have hrec := ih k (j + 1)
      (Cell.thumbCell p (thumb_for pilOk dec p s).1 :: row) rows
      (thumb_for pilOk dec p s).2 hk (by omega) (by omega)
    rw [Nat.add_assoc, hrec]
    simp only [processCells]
    rw [List.reverse_cons, List.append_assoc, List.singleton_append]

/-- The whole enumerate loop, started at a column boundary: it produces
exactly the column-sized chunks of the linearly processed cells
(accumulated in reverse with reversed rows). -/
theorem gridFold_outer (pilOk : Bool) (dec : String → Bool) (cols : Nat)
    (hcols : 1 ≤ cols) :
    ∀ (n : Nat) (imgs : List String), imgs.length ≤ n →
      ∀ (k : Nat) (acc : List (List Cell)) (s : ThumbState), k % cols = 0 →
      (imgs.enumFrom k).foldl (gridStep pilOk dec cols) (acc, s)
        = (((chunkList cols (processCells pilOk dec imgs s).1).map
              List.reverse).reverse ++ acc,
            (processCells pilOk dec imgs s).2) := by
  intro n
  induction n with
  | zero =>
    intro imgs hlen k acc s hk
    have himgs : imgs = [] := List.length_eq_zero.mp (Nat.le_zero.mp hlen)
    subst himgs
    simp [processCells, chunkList]
  | succ m ih =>
    intro imgs hlen k acc s hk
    cases imgs with
    | nil => simp [processCells, chunkList]
    | cons p ps =>
      simp only [List.length_cons] at hlen
      rw [List.enumFrom_cons, List.foldl_cons]
      have hstep : gridStep pilOk dec cols (acc, s) (k, p)
          = ([Cell.thumbCell p (thumb_for pilOk dec p s).1] :: acc,
              (thumb_for pilOk dec p s).2) := by
        simp only [gridStep, hk]
        exact if_pos trivial
      rw [hstep]
      by_cases hsplit : ps.length ≤ cols - 1
      · have hinner := gridFold_inner pilOk dec cols ps k 1
          [Cell.thumbCell p (thumb_for pilOk dec p s).1] acc
          (thumb_for pilOk dec p s).2 hk (by omega) (by omega)
        rw [hinner]
        simp only [processCells]
        have hlen2 : (processCells pilOk dec ps (thumb_for pilOk dec p s).2).1.length
            = ps.length := processCells_length pilOk dec ps _
        rw [chunkList,
          List.take_of_length_le (by omega),
          List.drop_eq_nil_of_le (by omega),
          chunkList]
        simp [List.reverse_cons]
      · have htd := List.take_append_drop (cols - 1) ps
        conv_lhs => rw [← htd]
        rw [enumFrom_append, List.foldl_append]
        have hlentake : (ps.take (cols - 1)).length = cols - 1 := by
          rw [List.length_take]
          omega
        have hinner := gridFold_inner pilOk dec cols (ps.take (cols - 1)) k 1
          [Cell.thumbCell p (thumb_for pilOk dec p s).1] acc
          (thumb_for pilOk dec p s).2 hk (by omega) (by omega)
        rw [hinner]
        have hidx : k + 1 + (ps.take (cols - 1)).length = k + cols := by
          rw [hlentake]; omega
        rw [hidx]
        have houter := ih (ps.drop (cols - 1))
          (by rw [List.length_drop]; omega) (k + cols)
          (((processCells pilOk dec (ps.take (cols - 1))
                (thumb_for pilOk dec p s).2).1.reverse
              ++ [Cell.thumbCell p (thumb_for pilOk dec p s).1]) :: acc)
          (processCells pilOk dec (ps.take (cols - 1))
            (thumb_for pilOk dec p s).2).2
          (by rw [Nat.add_mod_right]; exact hk)
        rw [houter]
        have happ := processCells_append pilOk dec (ps.take (cols - 1))
          (ps.drop (cols - 1)) (thumb_for pilOk dec p s).2
        rw [htd] at happ
        simp only [processCells]
        rw [happ]
        have hlencells : (processCells pilOk dec (ps.take (cols - 1))
            (thumb_for pilOk dec p s).2).1.length = cols - 1 := by
          rw [processCells_length]; exact hlentake
        rw [chunkList, List.take_left' hlencells, List.drop_left' hlencells]
        rw [List.map_cons, List.reverse_cons, List.append_assoc,
          List.singleton_append, List.reverse_cons]

/-- For a nonempty image list and at least one column,
build_thumbnail_grid is chunking of the linearly processed cells. -/
theorem build_grid_eq_chunk (pilOk : Bool) (dec : String → Bool) (cols : Nat)
    (hcols : 1 ≤ cols) (imgs : List String) (s : ThumbState) (hne : imgs ≠ []) :
    build_thumbnail_grid pilOk dec cols imgs s
      = (chunkList cols (processCells pilOk dec imgs s).1,
          (processCells pilOk dec imgs s).2) := by
  unfold build_thumbnail_grid
  rw [if_neg (by simpa using hne)]
  rw [List.enum_eq_enumFrom,
    gridFold_outer pilOk dec cols hcols imgs.length imgs le_rfl 0 [] s
      (Nat.zero_mod cols)]
  simp [List.map_map, Function.comp_def]

theorem chunkList_eq_nil_iff (c : Nat) (l : List α) :
    chunkList c l = [] ↔ l = [] := by
  cases l with
  | nil => simp [chunkList]
  | cons x xs =>
    rw [chunkList]
    simp

theorem chunkList_flatten (c : Nat) :
    ∀ (n : Nat) (l : List α), l.length ≤ n → (chunkList c l).flatten = l := by
  intro n
  induction n with
  | zero =>
    intro l hlen
    have : l = [] := List.length_eq_zero.mp (Nat.le_zero.mp hlen)
    subst this
    simp [chunkList]
  | succ m ih =>
    intro l hlen
    cases l with
    | nil => simp [chunkList]
    | cons x xs =>
      simp only [List.length_cons] at hlen
      rw [chunkList, List.flatten_cons,
        ih (xs.drop (c - 1)) (by rw [List.length_drop]; omega)]
      rw [List.cons_append, List.take_append_drop]

theorem chunkList_length (c : Nat) (hc : 1 ≤ c) :
    ∀ (n : Nat) (l : List α), l.length ≤ n →
      (chunkList c l).length = (l.length + c - 1) / c := by
  intro n
  induction n with
  | zero =>
    intro l hlen
    have hl : l = [] := List.length_eq_zero.mp (Nat.le_zero.mp hlen)
    subst hl
    simp [chunkList, Nat.div_eq_of_lt (show c - 1 < c by omega)]
  | succ m ih =>
    intro l hlen
    cases l with
    | nil =>
      simp [chunkList, Nat.div_eq_of_lt (show c - 1 < c by omega)]
    | cons x xs =>
      simp only [List.length_cons] at hlen
      rw [chunkList, List.length_cons,
        ih (xs.drop (c - 1)) (by rw [List.length_drop]; omega),
        List.length_drop, List.length_cons]
      have hrhs : xs.length + 1 + c - 1 = xs.length + c := by omega
      rw [hrhs, Nat.add_div_right _ (by omega)]
      by_cases hcase : c ≤ xs.length
      · have harg : xs.length - (c - 1) + c - 1 = xs.length := by omega
        rw [harg]
      · have harg : xs.length - (c - 1) = 0 := by omega
        rw [harg]
        rw [Nat.div_eq_of_lt (show 0 + c - 1 < c by omega),
          Nat.div_eq_of_lt (show xs.length < c by omega)]

theorem chunkList_mem_length (c : Nat) (hc : 1 ≤ c) :
    ∀ (n : Nat) (l : List α), l.length ≤ n →
      ∀ r ∈ chunkList c l, 1 ≤ r.length ∧ r.length ≤ c := by
  intro n
  induction n with
  | zero =>
    intro l hlen r hr
    have hl : l = [] := List.length_eq_zero.mp (Nat.le_zero.mp hlen)
    subst hl
    simp [chunkList] at hr
  | succ m ih =>
    intro l hlen r hr
    cases l with
    | nil => simp [chunkList] at hr
    | cons x xs =>
      simp only [List.length_cons] at hlen
      rw [chunkList] at hr
      rcases List.mem_cons.mp hr with hhead | htail
      · subst hhead
        rw [List.length_cons, List.length_take]
        omega
      · exact ih (xs.drop (c - 1)) (by rw [List.length_drop]; omega) r htail

theorem chunkList_dropLast_length (c : Nat) (hc : 1 ≤ c) :
    ∀ (n : Nat) (l : List α), l.length ≤ n →
      ∀ r ∈ (chunkList c l).dropLast, r.length = c := by
  intro n
  induction n with
  | zero =>
    intro l hlen r hr
    have hl : l = [] := List.length_eq_zero.mp (Nat.le_zero.mp hlen)
    subst hl
    simp [chunkList] at hr
  | succ m ih =>
    intro l hlen r hr
    cases l with
    | nil => simp [chunkList] at hr
    | cons x xs =>
      simp only [List.length_cons] at hlen
      rw [chunkList] at hr
      by_cases hrest : chunkList c (xs.drop (c - 1)) = []
      · rw [hrest] at hr
        simp at hr
      · rw [List.dropLast_cons_of_ne_nil hrest] at hr
        rcases List.mem_cons.mp hr with hhead | htail
        · subst hhead
          have hxs : c - 1 ≤ xs.length := by
            by_contra hcon
            exact hrest ((chunkList_eq_nil_iff c _).mpr
              (List.drop_eq_nil_of_le (by omega)))
          rw [List.length_cons, List.length_take]
          omega
        · exact ih (xs.drop (c - 1)) (by rw [List.length_drop]; omega) r htail

/-! ### Claim C3: the grid shape -/

/-- C3: with c columns (c at least 1), the grid holds the N images in
order in ceil(N / c) rows of exactly c cells each except possibly a
shorter (but nonempty) last row; an empty image list yields exactly one
row holding the single informational text cell, and the grid is never
empty. -/
theorem claim_C3 :
    ∀ (pilOk : Bool) (dec : String → Bool) (cols : Nat) (imgs : List String)
      (s : ThumbState), 1 ≤ cols →
      (imgs = [] →
        (build_thumbnail_grid pilOk dec cols imgs s).1
          = [[Cell.textCell (emptyGridMsg pilOk)]])
      ∧ (build_thumbnail_grid pilOk dec cols imgs s).1 ≠ []
      ∧ (imgs ≠ [] →
          (build_thumbnail_grid pilOk dec cols imgs s).1.length
              = (imgs.length + cols - 1) / cols
          ∧ (∀ row ∈ (build_thumbnail_grid pilOk dec cols imgs s).1.dropLast,
              row.length = cols)
          ∧ (∀ row ∈ (build_thumbnail_grid pilOk dec cols imgs s).1,
              1 ≤ row.length ∧ row.length ≤ cols)
          ∧ (build_thumbnail_grid pilOk dec cols imgs s).1.flatten.map cellPath
              = imgs.map some) := by
  intro pilOk dec cols imgs s hcols
  cases himgs : imgs with
  | nil =>
    refine ⟨fun _ => ?_, ?_, fun hne => absurd rfl hne⟩
    · rw [build_thumbnail_grid]
      simp
    · rw [build_thumbnail_grid]
      simp
  | cons p ps =>
    rw [← himgs]
    have hne : imgs ≠ [] := by rw [himgs]; exact List.cons_ne_nil p ps
    refine ⟨fun h => absurd h hne, ?_, fun _ => ?_⟩
    · rw [build_grid_eq_chunk pilOk dec cols hcols imgs s hne]
      have hcells : (processCells pilOk dec imgs s).1 ≠ [] := by
        intro hnil
        have := processCells_length pilOk dec imgs s
        rw [hnil] at this
        exact hne (List.length_eq_zero.mp this.symm)
      intro hchunk
      exact hcells ((chunkList_eq_nil_iff cols _).mp hchunk)
    · rw [build_grid_eq_chunk pilOk dec cols hcols imgs s hne]
      have hlen := processCells_length pilOk dec imgs s
      refine ⟨?_, ?_, ?_, ?_⟩
      · rw [chunkList_length cols hcols (processCells pilOk dec imgs s).1.length _ le_rfl,
          hlen]
      · intro row hrow
        exact chunkList_dropLast_length cols hcols
          (processCells pilOk dec imgs s).1.length _ le_rfl row hrow
      · intro row hrow
        exact chunkList_mem_length cols hcols
          (processCells pilOk dec imgs s).1.length _ le_rfl row hrow
      · rw [chunkList_flatten cols (processCells pilOk dec imgs s).1.length _ le_rfl]
        exact processCells_map_path pilOk dec imgs s

/-- Witness for C3: three images in two columns give two rows, the first
of width two, with the images in order; and the empty list gives the
single placeholder row. -/
theorem claim_C3_witness :
    1 ≤ 2
    ∧ (build_thumbnail_grid true (fun _ => true) 2 ["a", "b", "c"] ⟨[], 1, 0⟩).1.length
        = (3 + 2 - 1) / 2
    ∧ (build_thumbnail_grid true (fun _ => true) 2 [] ⟨[], 1, 0⟩).1
        = [[Cell.textCell (emptyGridMsg true)]] := by
  have h := claim_C3 true (fun _ => true) 2 ["a", "b", "c"] ⟨[], 1, 0⟩ (by decide)
  have h0 := claim_C3 true (fun _ => true) 2 [] ⟨[], 1, 0⟩ (by decide)
  exact ⟨by decide, (h.2.2 (by decide)).1, h0.1 rfl⟩

example : compute_columns 500 = 2 := by decide
example : compute_columns 0 = 1 := by decide
example : list_images (some [⟨"b.PNG", .file⟩, ⟨"a.jpg", .file⟩, ⟨"c.txt", .file⟩])
    = ["a.jpg", "b.PNG"] := by decide
example : pathSuffix ".jpg" = "" := by decide
example : pathSuffix "a.jpg" = ".jpg" := by decide
example : pathSuffix "a." = "" := by decide
